import Mathlib

/-!
Verification of the movie-recommender repository: a shallow embedding of the
hybrid scoring engine (hybrid_recommender.py), the user rating store
(user_rating_system.py) and the real-time refresh controller
(realtime_updater.py), with theorems settling the frozen claims.

Modelling conventions:
* Python floats are modelled as exact rationals.
* Python dicts keyed by movie id are modelled as association lists that keep
  insertion order (as Python dicts do).
* The SQLite ratings table is modelled as a list of (user_id, movie_id, rating)
  rows in rowid order; INSERT OR REPLACE deletes the conflicting row and
  appends the new one, which is what the filter-and-append model does.
* round(x, 3) is modelled as rounding x*1000 to an integer and dividing back.
  (Python uses round-half-to-even on binary floats; every concrete value this
  file rounds is an exact multiple of 1/1000, where the two agree.)
-/

/-- Membership test on lists of naturals (Python membership in a dict or list of ids). -/
def memN (m : Nat) : List Nat → Bool
  | [] => false
  | x :: xs => x == m || memN m xs

/-- Keep the first occurrence of each element (iteration over distinct ids). -/
def dedupF (l : List Nat) : List Nat :=
  l.foldl (fun acc x => if memN x acc then acc else acc ++ [x]) []

/-- Value bound to the first occurrence of a key in an association list
(Python dict lookup). -/
def lookupB {β : Type} : List (Nat × β) → Nat → Option β
  | [], _ => none
  | p :: ps, m => if p.1 == m then some p.2 else lookupB ps m

/-- Dict lookup on a score map. -/
def lookupQ (l : List (Nat × ℚ)) (m : Nat) : Option ℚ := lookupB l m

/-- Dict lookup of the (content, collaborative) pair in the hybrid table. -/
def lookup3 (t : List (Nat × ℚ × ℚ)) (m : Nat) : Option (ℚ × ℚ) := lookupB t m

/-- Index of the first occurrence of a user id (pandas Index.get_loc after the
membership guard in get_collaborative_recommendations). -/
def idxOf? (u : String) : List String → Option ℕ
  | [] => none
  | x :: xs => if x == u then some 0 else (idxOf? u xs).map (fun n => n + 1)

/-- Pair every element with its position, starting at n (Python enumerate). -/
def enumF {α : Type} : ℕ → List α → List (ℕ × α)
  | _, [] => []
  | n, a :: as => (n, a) :: enumF (n + 1) as

/-- Dot product of two rating vectors (np.dot). -/
def dotQ : List ℚ → List ℚ → ℚ
  | a :: as, b :: bs => a * b + dotQ as bs
  | _, _ => 0

/-- Python round(x, 3): here round half away from the floor at the third decimal.
All concrete scores compared in this file are exact multiples of 1/1000. -/
def round3 (q : ℚ) : ℚ := (round (q * 1000) : ℤ) / 1000

/-- Insert into a list sorted by strictly descending key, after all elements
with a key at least as large (preserves Python sort stability). -/
def insertDescBy {α : Type} (key : α → ℚ) (x : α) : List α → List α
  | [] => [x]
  | y :: ys => if key y < key x then x :: y :: ys else y :: insertDescBy key x ys

/-- Stable sort by descending key (Python sorted(..., reverse=True)). -/
def sortDescBy {α : Type} (key : α → ℚ) (l : List α) : List α :=
  l.foldl (fun acc x => insertDescBy key x acc) []

/-! ## Rating store (user_rating_system.py) -/

/-- The ratings table: (user_id, movie_id, rating) rows in rowid order. -/
abbrev RatingStore := List (String × Nat × ℚ)

/-- One row of the ratings table keyed by (user, movie). -/
def sameKey (u : String) (m : Nat) (row : String × Nat × ℚ) : Bool :=
  row.1 == u && row.2.1 == m

/-- UserRatingSystem.add_rating (user_rating_system.py:96-120): rejects a value
outside [0, 10] before touching the database, otherwise INSERT OR REPLACE on
the UNIQUE(user_id, movie_id) key.  (The users-table side effect of
create_user is not modelled; no claim mentions it.) -/
def addRating (store : RatingStore) (u : String) (m : Nat) (r : ℚ) :
    Except String RatingStore :=
  if ¬(0 ≤ r ∧ r ≤ 10) then Except.error "La note doit etre entre 0 et 10"
  else Except.ok (store.filter (fun row => !(sameKey u m row)) ++ [(u, m, r)])

/-- The store after an add_rating call: unchanged when the call raised. -/
def addRatingRun (store : RatingStore) (u : String) (m : Nat) (r : ℚ) : RatingStore :=
  match addRating store u m r with
  | Except.ok s => s
  | Except.error _ => store

/-- UserRatingSystem.get_user_ratings (user_rating_system.py:147-164):
SELECT movie_id, rating FROM ratings WHERE user_id = ? in rowid order. -/
def getUserRatings (store : RatingStore) (u : String) : List (Nat × ℚ) :=
  (store.filter (fun row => row.1 == u)).map (fun row => (row.2.1, row.2.2))

/-- Movie ids the user has rated (dict(get_user_ratings(user_id)) keys). -/
def ratedIds (store : RatingStore) (u : String) : List Nat :=
  (getUserRatings store u).map (fun p => p.1)

/-! ## Collaborative model state (hybrid_recommender.py) -/

/-- The pandas user-movie pivot: row labels, column labels, and cell values
(rows listed in the order of users, each row in the order of movies). -/
structure UserMovieMatrix where
  users : List String
  movies : List Nat
  cells : List (List ℚ)
deriving DecidableEq

/-- The trained collaborative state of HybridRecommendationSystem: the pivot
matrix, the user-user cosine similarity matrix, the SVD factor matrices
(each sub-step of train_collaborative_models is independently fault tolerant,
so any of them may be absent), and the ids present in movies_dataset.json. -/
structure CollabState where
  matrixOpt : Option UserMovieMatrix
  userSim : Option (List (List ℚ))
  userFactors : Option (List (List ℚ))
  itemFactors : Option (List (List ℚ))
  moviesDict : List Nat
deriving DecidableEq

/-- Value of a row at a movie-id column label (pandas Series lookup
user_ratings[movie_id], columns paired with cell values in order); 0 when the
label is absent. -/
def colValue : List Nat → List ℚ → Nat → ℚ
  | mv :: movies, r :: row, m => if mv == m then r else colValue movies row m
  | _, _, _ => 0

/-- Python dict write: when the key is present apply g to its bound value
(keeping its dict position), otherwise append the key bound to d0. -/
def updOrV {β : Type} (t : List (Nat × β)) (m : Nat) (g : β → β) (d0 : β) :
    List (Nat × β) :=
  if t.any (fun p => p.1 == m) then
    t.map (fun p => if p.1 == m then (p.1, g p.2) else p)
  else t ++ [(m, d0)]

/-- scores[movie_id] += v, creating the key at the end on first use
(_get_user_based_scores accumulation). -/
def addScore (sc : List (Nat × ℚ)) (m : Nat) (v : ℚ) : List (Nat × ℚ) :=
  updOrV sc m (fun x => x + v) v

/-- scores[movie_id] = v (_get_matrix_factorization_scores assignment). -/
def scoreSet (sc : List (Nat × ℚ)) (m : Nat) (v : ℚ) : List (Nat × ℚ) :=
  updOrV sc m (fun _ => v) v

/-- HybridRecommendationSystem._get_user_based_scores
(hybrid_recommender.py:180-202): take the ten most similar other users
(descending argsort, self dropped as its top entry), and for each one with
similarity above 0.1 accumulate similarity * rating into every movie that user
rated positively and the target user's row shows as 0. -/
def userBasedScores (M : UserMovieMatrix) (sim : List (List ℚ)) (uIdx : ℕ) :
    List (Nat × ℚ) :=
  let simRow := sim.getD uIdx []
  let similar :=
    ((sortDescBy (fun i => simRow.getD i 0) (List.range simRow.length)).drop 1).take 10
  let userRow := M.cells.getD uIdx []
  similar.foldl
    (fun scores j =>
      let s := simRow.getD j 0
      if 1/10 < s then
        (M.movies.zip (M.cells.getD j [])).foldl
          (fun sc p =>
            if 0 < p.2 ∧ colValue M.movies userRow p.1 = 0 then
              addScore sc p.1 (s * p.2)
            else sc)
          scores
      else scores)
    []

/-- HybridRecommendationSystem._get_matrix_factorization_scores
(hybrid_recommender.py:204-222): predicted rating = dot of the user factor row
with each item factor row, kept for every movie the target user's row shows
as 0. -/
def mfScores (M : UserMovieMatrix) (uf itf : List (List ℚ)) (uIdx : ℕ) :
    List (Nat × ℚ) :=
  let uvec := uf.getD uIdx []
  let userRow := M.cells.getD uIdx []
  (enumF 0 M.movies).foldl
    (fun sc p =>
      if colValue M.movies userRow p.2 = 0 then
        scoreSet sc p.2 (dotQ uvec (itf.getD p.1 []))
      else sc)
    []

/-- The score/count accumulation of get_collaborative_recommendations
(hybrid_recommender.py:142-155) for one candidate id. -/
def combineOne (ub mf : List (Nat × ℚ)) (m : Nat) : Option (Nat × ℚ) :=
  let p1 : ℚ × ℕ :=
    match lookupQ ub m with
    | some a => (0 + a, 0 + 1)
    | none => (0, 0)
  let p2 : ℚ × ℕ :=
    match lookupQ mf m with
    | some b => (p1.1 + b, p1.2 + 1)
    | none => p1
  if 0 < p2.2 then some (m, p2.1 / (p2.2 : ℚ)) else none

/-- Combined collaborative scores over the union of candidate ids
(hybrid_recommender.py:139-155). -/
def combineScores (ub mf : List (Nat × ℚ)) : List (Nat × ℚ) :=
  (dedupF (ub.map (fun p => p.1) ++ mf.map (fun p => p.1))).filterMap (combineOne ub mf)

/-- The user-based score map reached by get_collaborative_recommendations:
empty when the matrix is absent, the user is not a row label, or the
similarity matrix is absent. -/
def collabUB (s : CollabState) (u : String) : List (Nat × ℚ) :=
  match s.matrixOpt with
  | none => []
  | some M =>
    match idxOf? u M.users with
    | none => []
    | some uIdx =>
      match s.userSim with
      | none => []
      | some sim => userBasedScores M sim uIdx

/-- The factor-based score map reached by get_collaborative_recommendations:
empty when the matrix is absent, the user is not a row label, or either factor
matrix is absent. -/
def collabMF (s : CollabState) (u : String) : List (Nat × ℚ) :=
  match s.matrixOpt with
  | none => []
  | some M =>
    match idxOf? u M.users with
    | none => []
    | some uIdx =>
      match s.userFactors, s.itemFactors with
      | some uf, some itf => mfScores M uf itf uIdx
      | _, _ => []

/-- Combined collaborative candidate scores for a user. -/
def collabCombined (s : CollabState) (u : String) : List (Nat × ℚ) :=
  combineScores (collabUB s u) (collabMF s u)

/-- HybridRecommendationSystem.get_collaborative_recommendations
(hybrid_recommender.py:116-178): sort the combined scores descending, truncate
to num_recommendations, keep only ids present in movies_dataset.json, and
round each score to 3 decimals.  This models the already-trained state (the
method first trains when the trained flag is unset). -/
def getCollaborativeRecommendations (s : CollabState) (u : String) (numRecs : ℕ) :
    List (Nat × ℚ) :=
  ((((sortDescBy (fun p => p.2) (collabCombined s u)).take numRecs).filter
      (fun p => memN p.1 s.moviesDict)).map (fun p => (p.1, round3 p.2)))

/-! ## Hybrid fusion (hybrid_recommender.py:224-310) -/

/-- One final recommendation record: movie id with the rounded hybrid score and
its two rounded components. -/
structure HybridRec where
  id : Nat
  hybridScore : ℚ
  contentComponent : ℚ
  collabComponent : ℚ
deriving DecidableEq

/-- Positional score (list_length - rank_index) / list_length. -/
def posScore (L i : ℕ) : ℚ := ((L : ℚ) - (i : ℚ)) / (L : ℚ)

/-- hybrid_scores[movie_id] = new record with this content score and
collaborative score 0 (hybrid_recommender.py:256-264); an existing key keeps
its dict position. -/
def setContent (t : List (Nat × ℚ × ℚ)) (m : Nat) (cs : ℚ) : List (Nat × ℚ × ℚ) :=
  updOrV t m (fun _ => (cs, 0)) (cs, 0)

/-- Set the collaborative score of an existing record, or append a record with
content score 0 (hybrid_recommender.py:266-278). -/
def setCollab (t : List (Nat × ℚ × ℚ)) (m : Nat) (cls : ℚ) : List (Nat × ℚ × ℚ) :=
  updOrV t m (fun x => (x.1, cls)) (0, cls)

/-- The hybrid_scores dict after both scoring loops: content candidates scored
by position, then collaborative candidates scored by position and unioned in. -/
def hybridTable (contentRecs collabRecs : List Nat) : List (Nat × ℚ × ℚ) :=
  let t1 := (enumF 0 contentRecs).foldl
    (fun t p => setContent t p.2 (posScore contentRecs.length p.1)) []
  (enumF 0 collabRecs).foldl
    (fun t p => setCollab t p.2 (posScore collabRecs.length p.1)) t1

/-- The final_recommendations list before sorting
(hybrid_recommender.py:280-295): weighted blend rounded to 3 decimals,
components rounded to 3 decimals. -/
def hybridRecords (t : List (Nat × ℚ × ℚ)) (cw clw : ℚ) : List HybridRec :=
  t.map (fun q =>
    { id := q.1
      hybridScore := round3 (cw * q.2.1 + clw * q.2.2)
      contentComponent := round3 q.2.1
      collabComponent := round3 q.2.2 })

/-- HybridRecommendationSystem.get_hybrid_recommendations scoring tail
(hybrid_recommender.py:252-310), over the two candidate id lists: score, blend,
sort descending by hybrid score, drop movies the user already rated, truncate. -/
def getHybridRecommendations (contentRecs collabRecs : List Nat) (cw clw : ℚ)
    (rated : List Nat) (k : ℕ) : List HybridRec :=
  (((sortDescBy (fun r => r.hybridScore)
      (hybridRecords (hybridTable contentRecs collabRecs) cw clw)).filter
        (fun r => !(memN r.id rated))).take k)

/-- get_hybrid_recommendations wired to the collaborative model and the rating
store: the collaborative candidate list is scoreForUser with 2k, the rated
filter comes from get_user_ratings; the content candidate list (an external
collaborator per the spec) is a parameter. -/
def hybridFull (s : CollabState) (store : RatingStore) (contentRecs : List Nat)
    (cw clw : ℚ) (u : String) (k : ℕ) : List HybridRec :=
  getHybridRecommendations contentRecs
    ((getCollaborativeRecommendations s u (2 * k)).map (fun p => p.1))
    cw clw (ratedIds store u) k

/-! ## Real-time refresh controller (realtime_updater.py) -/

/-- An update event queued by the controller. -/
inductive UpdateEvent
  | rating (u : String) (m : Nat) (r : ℚ)
  | feedback (u : String) (m rm : Nat) (fb : String)
deriving DecidableEq

/-- RealTimeModelUpdater state: the FIFO queue, the pending-update counter, the
configured threshold, the hybrid system's collaborative model, the timestamped
backup snapshots under models/backups, the latest persisted model, and a
monotone clock supplying file modification times. -/
structure UpdaterState where
  queue : List UpdateEvent
  updateCount : ℕ
  minUpdatesThreshold : ℕ
  model : CollabState
  backups : List (ℕ × CollabState)
  latestSaved : Option CollabState
  clock : ℕ
deriving DecidableEq

/-- RealTimeModelUpdater.queue_rating_update (realtime_updater.py:73-89):
append, increment, and trigger an immediate out-of-band update when the
counter reaches the threshold.  The Bool reports whether
_trigger_immediate_update was called. -/
def queueRatingUpdate (s : UpdaterState) (u : String) (m : Nat) (r : ℚ) :
    UpdaterState × Bool :=
  let s1 := { s with
    queue := s.queue ++ [UpdateEvent.rating u m r]
    updateCount := s.updateCount + 1 }
  (s1, decide (s.minUpdatesThreshold ≤ s1.updateCount))

/-- RealTimeModelUpdater.queue_feedback_update (realtime_updater.py:91-105):
append and increment; this method has no threshold check and never triggers an
immediate update. -/
def queueFeedbackUpdate (s : UpdaterState) (u : String) (m rm : Nat) (fb : String) :
    UpdaterState × Bool :=
  let s1 := { s with
    queue := s.queue ++ [UpdateEvent.feedback u m rm fb]
    updateCount := s.updateCount + 1 }
  (s1, false)

/-- A run of queue_rating_update calls; the Bool reports whether any call
triggered an immediate update. -/
def enqueueRatings (s : UpdaterState) : List (String × Nat × ℚ) → UpdaterState × Bool
  | [] => (s, false)
  | e :: es =>
    let r1 := queueRatingUpdate s e.1 e.2.1 e.2.2
    let r2 := enqueueRatings r1.1 es
    (r2.1, r1.2 || r2.2)

/-- Python max(files, key=mtime): the first file of maximal modification time. -/
def maxByMtime : List (ℕ × CollabState) → Option (ℕ × CollabState)
  | [] => none
  | x :: xs => some (xs.foldl (fun c y => if c.1 < y.1 then y else c) x)

/-- RealTimeModelUpdater._restore_backup_models (realtime_updater.py:198-210):
load the backup with the latest modification time into the hybrid system,
doing nothing when no backup exists. -/
def restoreBackupModels (s : UpdaterState) : UpdaterState :=
  match maxByMtime s.backups with
  | none => s
  | some b => { s with model := b.2 }

/-- Where a fault is injected into a retrain cycle. -/
inductive Fault
  | noFault
  | duringBackup
  | duringTrain
  | duringPersist
deriving DecidableEq

/-- RealTimeModelUpdater._perform_model_update (realtime_updater.py:137-183)
with an injected fault.  Faithful control flow: the queue is drained first; a
fault raised inside _backup_current_models (realtime_updater.py:185-196) or
inside save_models (hybrid_recommender.py:341-361) is caught inside that
routine, so the cycle continues; only a fault escaping the train() call
reaches the outer handler, which restores the latest backup and returns
without resetting the counter or re-enqueuing the drained batch. -/
def performModelUpdate (trainFn : CollabState → CollabState) (fault : Fault)
    (s : UpdaterState) : UpdaterState :=
  let batch := s.queue
  let s1 := { s with queue := [] }
  if batch.isEmpty then s1
  else
    let s2 :=
      if fault = Fault.duringBackup then s1
      else { s1 with backups := s1.backups ++ [(s1.clock, s1.model)], clock := s1.clock + 1 }
    if fault = Fault.duringTrain then restoreBackupModels s2
    else
      let s3 := { s2 with model := trainFn s2.model }
      let s4 :=
        if fault = Fault.duringPersist then s3
        else { s3 with latestSaved := some s3.model }
      { s4 with updateCount := 0 }

/-! ## Validity predicates tying a trained state to the rating store -/

/-- The pivot matrix agrees with the ratings table: each stored rating of a
user appearing as row i shows up as that row's value at the movie's column. -/
def MatrixMatches (store : RatingStore) (M : UserMovieMatrix) : Prop :=
  ∀ row ∈ store, ∀ i ∈ List.range M.users.length,
    M.users.getD i "" = row.1 → colValue M.movies (M.cells.getD i []) row.2.1 = row.2.2

/-- MatrixMatches lifted over the optional matrix of a state. -/
def StateMatchesStore (store : RatingStore) (s : CollabState) : Prop :=
  ∀ M, s.matrixOpt = some M → MatrixMatches store M

/-- Row labels of the pivot only come from users with a stored rating. -/
def UsersFromStore (store : RatingStore) (M : UserMovieMatrix) : Prop :=
  ∀ u ∈ M.users, ∃ row ∈ store, row.1 = u

/-- UsersFromStore lifted over the optional matrix of a state. -/
def StateUsersFromStore (store : RatingStore) (s : CollabState) : Prop :=
  ∀ M, s.matrixOpt = some M → UsersFromStore store M

/-- Square-root-free characterisation of the user-user cosine similarity
matrix: an entry s is cos(ri, rj) = dot(ri, rj) / (norm ri * norm rj) exactly
when s^2 * dot(ri, ri) * dot(rj, rj) = dot(ri, rj)^2 and s * dot(ri, rj) is
nonnegative (for rows of nonzero norm this pins s uniquely). -/
def IsCosineSim (cells sim : List (List ℚ)) : Prop :=
  ∀ i ∈ List.range cells.length, ∀ j ∈ List.range cells.length,
    ((sim.getD i []).getD j 0) ^ 2 * dotQ (cells.getD i []) (cells.getD i []) *
        dotQ (cells.getD j []) (cells.getD j []) =
      dotQ (cells.getD i []) (cells.getD j []) ^ 2 ∧
    0 ≤ (sim.getD i []).getD j 0 * dotQ (cells.getD i []) (cells.getD j [])

/-- IsCosineSim lifted over the optional components of a state. -/
def StateCosineValid (s : CollabState) : Prop :=
  ∀ M sim, s.matrixOpt = some M → s.userSim = some sim → IsCosineSim M.cells sim

/-! ## Concrete scenario states used by counterexamples and witnesses -/

/-- Ratings table: user a rated movie 1 with 5 and movie 2 with 0 (a legal
value in [0,10]); user b rated movie 1 with 3 and movie 2 with 4. -/
def storeC3 : RatingStore := [("a", 1, 5), ("a", 2, 0), ("b", 1, 3), ("b", 2, 4)]

/-- The pivot of storeC3: rows a = (5, 0) and b = (3, 4). -/
def matC3 : UserMovieMatrix :=
  { users := ["a", "b"], movies := [1, 2], cells := [[5, 0], [3, 4]] }

/-- A trained state for storeC3: cosine similarities cos((5,0),(3,4)) = 3/5
(both rows have norm 5, dot product 15); the SVD sub-step is absent, which
train_collaborative_models permits since each sub-step is fault tolerant. -/
def stateC3 : CollabState :=
  { matrixOpt := some matC3
    userSim := some [[1, 3/5], [3/5, 1]]
    userFactors := none
    itemFactors := none
    moviesDict := [1, 2] }

/-- A trained state whose movies_dataset.json lacks the top-scored candidate:
user u (row (7,0,0,0)) and user w (row (7,9,8,0)) with similarity 1/2; the
combined candidates for u are movie 2 (score 9/2) and movie 3 (score 4), but
only movie 3 appears in the metadata dictionary. -/
def stateC10 : CollabState :=
  { matrixOpt := some
      { users := ["u", "w"], movies := [1, 2, 3, 4], cells := [[7, 0, 0, 0], [7, 9, 8, 0]] }
    userSim := some [[1, 1/2], [1/2, 1]]
    userFactors := none
    itemFactors := none
    moviesDict := [3] }

/-- A collaborative model with nothing trained. -/
def emptyModel : CollabState :=
  { matrixOpt := none, userSim := none, userFactors := none, itemFactors := none,
    moviesDict := [] }

/-- A distinct collaborative model standing for the result of a retrain. -/
def modelB : CollabState :=
  { matrixOpt := none, userSim := none, userFactors := some [[1]], itemFactors := none,
    moviesDict := [] }

/-- A train function whose result differs from emptyModel. -/
def trainToB : CollabState → CollabState := fun _ => modelB

/-- Controller state before a retrain cycle: one queued event, pending counter
3, no snapshots yet. -/
def updaterC4 : UpdaterState :=
  { queue := [UpdateEvent.rating "x" 1 5], updateCount := 3, minUpdatesThreshold := 10,
    model := emptyModel, backups := [], latestSaved := none, clock := 0 }

/-- Fresh controller with threshold 2 and empty queue. -/
def updaterC5 : UpdaterState :=
  { queue := [], updateCount := 0, minUpdatesThreshold := 2, model := emptyModel,
    backups := [], latestSaved := none, clock := 0 }

/-! ## Statement bodies of the larger claims -/

/-- Structural content of claim C1 over arbitrary duplicate-free candidate
lists: positional scores (L - i)/L on each list, union by movie id with absent
components 0, and the weighted blend cw*content + clw*collaborative feeding
each output record. -/
def C1Core (c k : List Nat) (cw clw : ℚ) : Prop :=
  (∀ i ∈ List.range c.length, ∃ cls,
    lookup3 (hybridTable c k) (c.getD i 0) = some (posScore c.length i, cls)) ∧
  (∀ j ∈ List.range k.length, ∃ cs,
    lookup3 (hybridTable c k) (k.getD j 0) = some (cs, posScore k.length j)) ∧
  (∀ q ∈ hybridTable c k,
    (q.1 ∈ c ∨ q.1 ∈ k) ∧ (q.1 ∉ c → q.2.1 = 0) ∧ (q.1 ∉ k → q.2.2 = 0)) ∧
  (∀ r ∈ hybridRecords (hybridTable c k) cw clw, ∃ q ∈ hybridTable c k,
    r.id = q.1 ∧ r.hybridScore = round3 (cw * q.2.1 + clw * q.2.2) ∧
    r.contentComponent = round3 q.2.1 ∧ r.collabComponent = round3 q.2.2)

/-- The synthetic case of claim C1: one user, three candidate movies, weights
0.6 and 0.4; content candidates [10, 20, 30] (positional scores 1, 2/3, 1/3)
and collaborative candidate [10] (positional score 1).  The hand-computed
blends are 1, 2/5 and 1/5, and each computed hybrid score matches within
1/1000000. -/
def C1Synth : Prop :=
  ((getHybridRecommendations [10, 20, 30] [10] (3/5) (2/5) [] 3).map
      (fun r => (r.id, r.hybridScore))) = [(10, 1), (20, 2/5), (30, 1/5)] ∧
  ∀ p ∈ ((getHybridRecommendations [10, 20, 30] [10] (3/5) (2/5) [] 3).map
      (fun r => r.hybridScore)).zip
        [3/5 * 1 + 2/5 * 1, 3/5 * (2/3) + 2/5 * 0, 3/5 * (1/3) + 2/5 * 0],
    |p.1 - p.2| ≤ 1/1000000

/-- Amended no-self-recommendation property of claim C3: the hybrid output
never contains a rated movie, and the collaborative output never contains a
movie whose stored rating value is nonzero. -/
def C3Concl (s : CollabState) (store : RatingStore) (u : String) (m : Nat) (v : ℚ) : Prop :=
  (v ≠ 0 → ∀ k, ∀ x ∈ getCollaborativeRecommendations s u k, x.1 ≠ m) ∧
  (∀ contentRecs cw clw k, ∀ r ∈ hybridFull s store contentRecs cw clw u k, r.id ≠ m)

/-- Amended rollback property of claim C4, for a fault escaping the train()
call: the model is restored to its pre-cycle value (the cycle's own snapshot,
which has the newest modification time), the pending counter is untouched,
but the drained batch is gone — the queue is left empty.  A fault inside the
persist routine is swallowed there, so that cycle still resets the counter. -/
def C4Concl (trainFn : CollabState → CollabState) (s : UpdaterState) : Prop :=
  (performModelUpdate trainFn Fault.duringTrain s).model = s.model ∧
  (performModelUpdate trainFn Fault.duringTrain s).updateCount = s.updateCount ∧
  (performModelUpdate trainFn Fault.duringTrain s).queue = [] ∧
  (performModelUpdate trainFn Fault.duringPersist s).updateCount = 0

/-- Amended enqueue property of claim C5: both enqueue methods append to the
FIFO queue and increment the counter, but only queue_rating_update checks the
threshold and triggers an immediate retrain; rating runs of length below the
threshold never trigger, and a run of exactly the threshold length does. -/
def C5Concl (s : UpdaterState) (u : String) (m rm : Nat) (r : ℚ) (fb : String)
    (events : List (String × Nat × ℚ)) : Prop :=
  ((queueRatingUpdate s u m r).1.queue = s.queue ++ [UpdateEvent.rating u m r] ∧
   (queueRatingUpdate s u m r).1.updateCount = s.updateCount + 1 ∧
   ((queueRatingUpdate s u m r).2 = true ↔
     s.minUpdatesThreshold ≤ s.updateCount + 1)) ∧
  ((queueFeedbackUpdate s u m rm fb).1.queue =
     s.queue ++ [UpdateEvent.feedback u m rm fb] ∧
   (queueFeedbackUpdate s u m rm fb).1.updateCount = s.updateCount + 1 ∧
   (queueFeedbackUpdate s u m rm fb).2 = false) ∧
  (events.length < s.minUpdatesThreshold → (enqueueRatings s events).2 = false) ∧
  (events.length = s.minUpdatesThreshold → (enqueueRatings s events).2 = true)

/-! ## Generic lemmas about the helper operations -/

theorem foldl_preserve {α β : Type} {P : β → Prop} {f : β → α → β} {l : List α} {b : β}
    (hb : P b) (hf : ∀ b a, P b → a ∈ l → P (f b a)) : P (l.foldl f b) := by
  induction l generalizing b with
  | nil => exact hb
  | cons x xs ih =>
    exact ih (hf b x hb (List.mem_cons_self x xs))
      (fun b a hb ha => hf b a hb (List.mem_cons_of_mem _ ha))

theorem memN_iff {m : Nat} {l : List Nat} : memN m l = true ↔ m ∈ l := by
  induction l with
  | nil => simp [memN]
  | cons x xs ih =>
    simp only [memN, Bool.or_eq_true, beq_iff_eq, ih, List.mem_cons]
    exact or_congr_left eq_comm

theorem mem_dedupF_aux (l : List Nat) :
    ∀ acc x, x ∈ l.foldl (fun acc y => if memN y acc then acc else acc ++ [y]) acc ↔
      x ∈ acc ∨ x ∈ l := by
  induction l with
  | nil => simp
  | cons y ys ih =>
    intro acc x
    rw [List.foldl_cons]
    by_cases h : memN y acc = true
    · rw [if_pos h, ih]
      have hy : y ∈ acc := memN_iff.mp h
      simp only [List.mem_cons]
      constructor
      · rintro (h1 | h1) <;> tauto
      · rintro (h1 | rfl | h1) <;> tauto
    · rw [if_neg h, ih]
      simp only [List.mem_append, List.mem_cons, List.mem_singleton]
      tauto

theorem mem_dedupF {l : List Nat} {x : Nat} : x ∈ dedupF l ↔ x ∈ l := by
  rw [dedupF, mem_dedupF_aux]
  simp

theorem lookupB_mem {β : Type} {l : List (Nat × β)} {m : Nat} {v : β}
    (h : lookupB l m = some v) : (m, v) ∈ l := by
  induction l with
  | nil => simp [lookupB] at h
  | cons p ps ih =>
    by_cases hp : (p.1 == m) = true
    · rw [lookupB, if_pos hp] at h
      have hm : p.1 = m := by simpa using hp
      have hv : p.2 = v := by simpa using h
      have hpe : p = (m, v) := by rw [← hm, ← hv]
      rw [← hpe]
      exact List.mem_cons_self p ps
    · rw [lookupB, if_neg hp] at h
      exact List.mem_cons_of_mem _ (ih h)

theorem idxOf?_eq_none {u : String} {l : List String} (h : u ∉ l) : idxOf? u l = none := by
  induction l with
  | nil => rfl
  | cons x xs ih =>
    have hx : (x == u) = false := by
      refine beq_eq_false_iff_ne.mpr ?_
      intro e
      exact h (e ▸ List.mem_cons_self x xs)
    rw [idxOf?, if_neg (by simp [hx]), ih (fun hm => h (List.mem_cons_of_mem _ hm))]
    rfl

theorem idxOf?_getD {u : String} {l : List String} {i : ℕ} (h : idxOf? u l = some i) :
    i < l.length ∧ l.getD i "" = u := by
  induction l generalizing i with
  | nil => simp [idxOf?] at h
  | cons x xs ih =>
    by_cases hx : (x == u) = true
    · rw [idxOf?, if_pos (by simp [hx])] at h
      have hi : i = 0 := by simpa using h.symm
      subst hi
      exact ⟨by simp, by simpa using hx⟩
    · rw [idxOf?, if_neg (by simp at hx ⊢; exact hx)] at h
      rcases Option.map_eq_some'.mp h with ⟨j, hj, hji⟩
      rcases ih hj with ⟨h1, h2⟩
      subst hji
      exact ⟨by simpa using h1, by simpa using h2⟩

theorem getD_memQ {α : Type} {l : List α} {i : ℕ} (h : i < l.length) (d : α) :
    l.getD i d ∈ l := by
  induction l generalizing i with
  | nil => simp at h
  | cons x xs ih =>
    cases i with
    | zero => simp
    | succ j =>
      simp only [List.getD_cons_succ]
      exact List.mem_cons_of_mem _ (ih (by simpa using h))

theorem mem_insertDescBy {α : Type} {key : α → ℚ} {x y : α} {l : List α} :
    y ∈ insertDescBy key x l ↔ y = x ∨ y ∈ l := by
  induction l with
  | nil => simp [insertDescBy]
  | cons z zs ih =>
    rw [insertDescBy]
    by_cases h : key z < key x
    · simp [h, List.mem_cons]
    · simp only [h, if_false, List.mem_cons, ih]
      tauto

theorem pairwise_insertDescBy {α : Type} {key : α → ℚ} {x : α} {l : List α}
    (h : l.Pairwise (fun a b => key b ≤ key a)) :
    (insertDescBy key x l).Pairwise (fun a b => key b ≤ key a) := by
  induction l with
  | nil => simp [insertDescBy]
  | cons z zs ih =>
    rw [insertDescBy]
    rcases List.pairwise_cons.mp h with ⟨hz, hzs⟩
    by_cases hlt : key z < key x
    · rw [if_pos hlt]
      refine List.pairwise_cons.mpr ⟨?_, h⟩
      intro b hb
      rcases List.mem_cons.mp hb with rfl | hb
      · exact le_of_lt hlt
      · exact le_trans (hz b hb) (le_of_lt hlt)
    · rw [if_neg hlt]
      refine List.pairwise_cons.mpr ⟨?_, ih hzs⟩
      intro b hb
      rcases mem_insertDescBy.mp hb with rfl | hb
      · exact le_of_not_lt hlt
      · exact hz b hb

theorem mem_sortDescBy_aux {α : Type} {key : α → ℚ} (l : List α) :
    ∀ acc x, x ∈ l.foldl (fun acc y => insertDescBy key y acc) acc ↔ x ∈ acc ∨ x ∈ l := by
  induction l with
  | nil => simp
  | cons y ys ih =>
    intro acc x
    rw [List.foldl_cons, ih, mem_insertDescBy]
    simp only [List.mem_cons]
    tauto

theorem mem_sortDescBy {α : Type} {key : α → ℚ} {l : List α} {x : α} :
    x ∈ sortDescBy key l ↔ x ∈ l := by
  rw [sortDescBy, mem_sortDescBy_aux]
  simp

theorem pairwise_sortDescBy {α : Type} (key : α → ℚ) (l : List α) :
    (sortDescBy key l).Pairwise (fun a b => key b ≤ key a) := by
  rw [sortDescBy]
  exact foldl_preserve (P := fun (t : List α) => t.Pairwise (fun a b => key b ≤ key a))
    List.Pairwise.nil (fun b a hb _ => pairwise_insertDescBy hb)

theorem round3_zero : round3 0 = 0 := by
  simp [round3]

theorem round3_mono {a b : ℚ} (h : a ≤ b) : round3 a ≤ round3 b := by
  unfold round3
  have h2 : round (a * 1000) ≤ round (b * 1000) := by
    rw [round_eq, round_eq]
    exact Int.floor_le_floor (by linarith)
  have h3 : ((round (a * 1000) : ℤ) : ℚ) ≤ ((round (b * 1000) : ℤ) : ℚ) := by
    exact_mod_cast h2
  exact (div_le_div_iff_of_pos_right (by norm_num : (0:ℚ) < 1000)).mpr h3

/-! ## Lemmas about the dict-update combinator -/

theorem mem_updOrV {β : Type} {t : List (Nat × β)} {m : Nat} {g : β → β} {d0 : β}
    {q : Nat × β} (hq : q ∈ updOrV t m g d0) :
    q = (m, d0) ∨ ∃ p ∈ t, q = p ∨ (p.1 = m ∧ q = (p.1, g p.2)) := by
  unfold updOrV at hq
  by_cases h : t.any (fun p => p.1 == m) = true
  · rw [if_pos h] at hq
    rcases List.mem_map.mp hq with ⟨p, hp, he⟩
    right
    refine ⟨p, hp, ?_⟩
    by_cases hc : (p.1 == m) = true
    · exact Or.inr ⟨by simpa using hc, by rw [← he, if_pos hc]⟩
    · exact Or.inl (by rw [← he, if_neg hc])
  · rw [if_neg h] at hq
    rcases List.mem_append.mp hq with hq | hq
    · exact Or.inr ⟨q, hq, Or.inl rfl⟩
    · exact Or.inl (by simpa using hq)

theorem updOrV_keys {β : Type} {P : Nat → Prop} {t : List (Nat × β)} {m : Nat}
    {g : β → β} {d0 : β} (hm : P m) (ht : ∀ q ∈ t, P q.1) :
    ∀ q ∈ updOrV t m g d0, P q.1 := by
  intro q hq
  rcases mem_updOrV hq with rfl | ⟨p, hp, heq | ⟨hpm, heq⟩⟩
  · exact hm
  · rw [heq]
    exact ht p hp
  · rw [heq]
    exact ht p hp

theorem updOrV_absent {β : Type} {t : List (Nat × β)} {m : Nat} {g : β → β} {d0 : β}
    (h : ∀ q ∈ t, q.1 ≠ m) : updOrV t m g d0 = t ++ [(m, d0)] := by
  have hn : ¬(t.any (fun p => p.1 == m) = true) := by
    intro hc
    rcases List.any_eq_true.mp hc with ⟨p, hp, hpm⟩
    exact h p hp (by simpa using hpm)
  unfold updOrV
  rw [if_neg hn]

theorem lookupB_none {β : Type} {t : List (Nat × β)} {m : Nat}
    (h : lookupB t m = none) : ∀ q ∈ t, q.1 ≠ m := by
  induction t with
  | nil => simp
  | cons p ps ih =>
    by_cases hp : (p.1 == m) = true
    · rw [lookupB, if_pos hp] at h
      exact absurd h (by simp)
    · rw [lookupB, if_neg hp] at h
      intro q hq
      rcases List.mem_cons.mp hq with rfl | hq
      · simpa using hp
      · exact ih h q hq

theorem lookupB_append {β : Type} (l1 l2 : List (Nat × β)) (m : Nat) :
    lookupB (l1 ++ l2) m =
      match lookupB l1 m with
      | some v => some v
      | none => lookupB l2 m := by
  induction l1 with
  | nil => simp [lookupB]
  | cons p ps ih =>
    rw [List.cons_append]
    by_cases hp : (p.1 == m) = true
    · rw [lookupB, if_pos hp, lookupB, if_pos hp]
    · rw [lookupB, if_neg hp, lookupB, if_neg hp, ih]

theorem lookupB_map_upd {β : Type} {t : List (Nat × β)} {m : Nat} {g : β → β} {v : β}
    (h : lookupB t m = some v) :
    lookupB (t.map (fun p => if p.1 == m then (p.1, g p.2) else p)) m = some (g v) := by
  induction t with
  | nil => simp [lookupB] at h
  | cons p ps ih =>
    simp only [List.map_cons]
    by_cases hp : (p.1 == m) = true
    · rw [lookupB, if_pos hp] at h
      have hv : p.2 = v := by simpa using h
      rw [if_pos hp, lookupB, if_pos hp, hv]
    · rw [lookupB, if_neg hp] at h
      rw [if_neg hp, lookupB, if_neg hp]
      exact ih h

theorem lookupB_map_ne {β : Type} {t : List (Nat × β)} {m m2 : Nat} {g : β → β}
    (hne : m2 ≠ m) :
    lookupB (t.map (fun p => if p.1 == m then (p.1, g p.2) else p)) m2 =
      lookupB t m2 := by
  induction t with
  | nil => rfl
  | cons p ps ih =>
    simp only [List.map_cons]
    by_cases hp : (p.1 == m) = true
    · have hm : p.1 = m := by simpa using hp
      have h2 : ¬((p.1 == m2) = true) := by
        simp only [beq_iff_eq, hm]
        exact fun e => hne e.symm
      rw [if_pos hp, lookupB, if_neg h2, lookupB, if_neg h2]
      exact ih
    · rw [if_neg hp, lookupB, lookupB]
      by_cases h2 : (p.1 == m2) = true
      · rw [if_pos h2, if_pos h2]
      · rw [if_neg h2, if_neg h2]
        exact ih

theorem lookupB_updOrV_present {β : Type} {t : List (Nat × β)} {m : Nat} {g : β → β}
    {d0 v : β} (h : lookupB t m = some v) :
    lookupB (updOrV t m g d0) m = some (g v) := by
  have hany : t.any (fun p => p.1 == m) = true := by
    refine List.any_eq_true.mpr ⟨(m, v), lookupB_mem h, ?_⟩
    simp
  unfold updOrV
  rw [if_pos hany]
  exact lookupB_map_upd h

theorem lookupB_updOrV_absent {β : Type} {t : List (Nat × β)} {m : Nat} {g : β → β}
    {d0 : β} (h : lookupB t m = none) :
    lookupB (updOrV t m g d0) m = some d0 := by
  rw [updOrV_absent (lookupB_none h), lookupB_append, h]
  simp [lookupB]

theorem lookupB_updOrV_ne {β : Type} {t : List (Nat × β)} {m m2 : Nat} {g : β → β}
    {d0 : β} (hne : m2 ≠ m) :
    lookupB (updOrV t m g d0) m2 = lookupB t m2 := by
  unfold updOrV
  by_cases h : t.any (fun p => p.1 == m) = true
  · rw [if_pos h]
    exact lookupB_map_ne hne
  · rw [if_neg h, lookupB_append]
    have hd : ¬((m == m2) = true) := by
      simp only [beq_iff_eq]
      exact fun e => hne e.symm
    cases hl : lookupB t m2 with
    | some v => rfl
    | none => simp [lookupB, hd]

/-! ## Rating store lemmas and claims C6, C7 -/

theorem filter_eq_nil_of {α : Type} {p : α → Bool} {l : List α}
    (h : ∀ a ∈ l, p a = false) : l.filter p = [] := by
  induction l with
  | nil => rfl
  | cons x xs ih =>
    rw [List.filter_cons, if_neg (by simp [h x (List.mem_cons_self x xs)])]
    exact ih (fun a ha => h a (List.mem_cons_of_mem _ ha))

theorem mem_getUserRatings {store : RatingStore} {u : String} {p : Nat × ℚ}
    (hp : p ∈ getUserRatings store u) :
    ∃ row ∈ store, row.1 = u ∧ row.2.1 = p.1 ∧ row.2.2 = p.2 := by
  unfold getUserRatings at hp
  rcases List.mem_map.mp hp with ⟨row, hrow, he⟩
  have hf := List.mem_filter.mp hrow
  exact ⟨row, hf.1, by simpa using hf.2, by rw [← he], by rw [← he]⟩

theorem putList_residual (t : RatingStore) (u : String) (m : Nat) :
    (getUserRatings (t.filter (fun row => !(sameKey u m row))) u).filter
      (fun p => p.1 == m) = [] := by
  apply filter_eq_nil_of
  intro p hp
  rcases mem_getUserRatings hp with ⟨row, hrow, hu, hm, _⟩
  have hkey := (List.mem_filter.mp hrow).2
  have hnk : sameKey u m row = false := by
    cases hsk : sameKey u m row with
    | false => rfl
    | true => rw [hsk] at hkey; exact absurd hkey (by simp)
  unfold sameKey at hnk
  rw [Bool.and_eq_false_iff] at hnk
  rcases hnk with hnk | hnk
  · exact absurd (by simpa using hu) (by simpa using hnk)
  · rw [← hm]
    exact hnk

theorem putList_single (t : RatingStore) (u : String) (m : Nat) (r : ℚ) :
    (getUserRatings (t.filter (fun row => !(sameKey u m row)) ++ [(u, m, r)]) u).filter
      (fun p => p.1 == m) = [(m, r)] := by
  unfold getUserRatings
  rw [List.filter_append, List.map_append, List.filter_append]
  have h1 := putList_residual t u m
  unfold getUserRatings at h1
  rw [h1]
  simp [List.filter, List.map]

/-- C6: a rating value outside [0,10] makes add_rating fail with the
validation error and leaves the store unchanged; a value in [0,10] succeeds. -/
theorem c6_rating_validation (store : RatingStore) (u : String) (m : Nat) (r : ℚ) :
    (¬(0 ≤ r ∧ r ≤ 10) →
      addRating store u m r = Except.error "La note doit etre entre 0 et 10" ∧
      addRatingRun store u m r = store) ∧
    ((0 ≤ r ∧ r ≤ 10) → ∃ s2, addRating store u m r = Except.ok s2) := by
  constructor
  · intro h
    have he : addRating store u m r = Except.error "La note doit etre entre 0 et 10" := by
      rw [addRating, if_pos h]
    exact ⟨he, by rw [addRatingRun, he]⟩
  · intro h
    exact ⟨_, by rw [addRating, if_neg (not_not.mpr h)]⟩

/-- Witness for C6 at concrete inputs 11 (rejected) and 7 (accepted). -/
theorem c6_witness :
    (¬((0:ℚ) ≤ 11 ∧ (11:ℚ) ≤ 10)) ∧
    (addRating [] "a" 1 11 = Except.error "La note doit etre entre 0 et 10" ∧
      addRatingRun [] "a" 1 11 = []) ∧
    ((0:ℚ) ≤ 7 ∧ (7:ℚ) ≤ 10) ∧
    (∃ s2, addRating [] "a" 1 7 = Except.ok s2) :=
  ⟨by norm_num, (c6_rating_validation [] "a" 1 11).1 (by norm_num), by norm_num,
    (c6_rating_validation [] "a" 1 7).2 (by norm_num)⟩

/-- C7: put then list shows exactly one pair for the movie id, carrying the
stored value; a second put on the same key overwrites it, so at most one
rating per (user, movie) key exists. -/
theorem c7_put_then_list (store : RatingStore) (u : String) (m : Nat) (r r2 : ℚ)
    (h : 0 ≤ r ∧ r ≤ 10) (h2 : 0 ≤ r2 ∧ r2 ≤ 10) :
    ∃ s1 s2, addRating store u m r = Except.ok s1 ∧
      (getUserRatings s1 u).filter (fun p => p.1 == m) = [(m, r)] ∧
      addRating s1 u m r2 = Except.ok s2 ∧
      (getUserRatings s2 u).filter (fun p => p.1 == m) = [(m, r2)] := by
  refine ⟨store.filter (fun row => !(sameKey u m row)) ++ [(u, m, r)],
    (store.filter (fun row => !(sameKey u m row)) ++ [(u, m, r)]).filter
      (fun row => !(sameKey u m row)) ++ [(u, m, r2)],
    by rw [addRating, if_neg (not_not.mpr h)], putList_single store u m r,
    by rw [addRating, if_neg (not_not.mpr h2)], putList_single _ u m r2⟩

/-- Witness for C7: put 6 then 9 on the same key over a one-row store. -/
theorem c7_witness :
    ((0:ℚ) ≤ 6 ∧ (6:ℚ) ≤ 10) ∧ ((0:ℚ) ≤ 9 ∧ (9:ℚ) ≤ 10) ∧
    (∃ s1 s2, addRating [("a", 2, 5)] "a" 1 6 = Except.ok s1 ∧
      (getUserRatings s1 "a").filter (fun p => p.1 == 1) = [(1, 6)] ∧
      addRating s1 "a" 1 9 = Except.ok s2 ∧
      (getUserRatings s2 "a").filter (fun p => p.1 == 1) = [(1, 9)]) :=
  ⟨by norm_num, by norm_num,
    c7_put_then_list [("a", 2, 5)] "a" 1 6 9 (by norm_num) (by norm_num)⟩

/-! ## Collaborative scoring lemmas -/

theorem userBasedScores_colValue {M : UserMovieMatrix} {sim : List (List ℚ)} {uIdx : ℕ} :
    ∀ p ∈ userBasedScores M sim uIdx,
      colValue M.movies (M.cells.getD uIdx []) p.1 = 0 := by
  simp only [userBasedScores]
  apply foldl_preserve
    (P := fun (t : List (Nat × ℚ)) =>
      ∀ p ∈ t, colValue M.movies (M.cells.getD uIdx []) p.1 = 0)
  · intro p hp
    simp at hp
  · intro t j ht hj
    by_cases hs : (1:ℚ)/10 < (sim.getD uIdx []).getD j 0
    · rw [if_pos hs]
      apply foldl_preserve
        (P := fun (t : List (Nat × ℚ)) =>
          ∀ p ∈ t, colValue M.movies (M.cells.getD uIdx []) p.1 = 0)
      · exact ht
      · intro t2 q ht2 hq
        by_cases hg : 0 < q.2 ∧ colValue M.movies (M.cells.getD uIdx []) q.1 = 0
        · rw [if_pos hg]
          exact updOrV_keys
            (P := fun n => colValue M.movies (M.cells.getD uIdx []) n = 0) hg.2 ht2
        · rw [if_neg hg]
          exact ht2
    · rw [if_neg hs]
      exact ht

theorem mfScores_colValue {M : UserMovieMatrix} {uf itf : List (List ℚ)} {uIdx : ℕ} :
    ∀ p ∈ mfScores M uf itf uIdx,
      colValue M.movies (M.cells.getD uIdx []) p.1 = 0 := by
  simp only [mfScores]
  apply foldl_preserve
    (P := fun (t : List (Nat × ℚ)) =>
      ∀ p ∈ t, colValue M.movies (M.cells.getD uIdx []) p.1 = 0)
  · intro p hp
    simp at hp
  · intro t q ht hq
    by_cases hg : colValue M.movies (M.cells.getD uIdx []) q.2 = 0
    · rw [if_pos hg]
      exact updOrV_keys
        (P := fun n => colValue M.movies (M.cells.getD uIdx []) n = 0) hg ht
    · rw [if_neg hg]
      exact ht

theorem combineOne_eval (ub mf : List (Nat × ℚ)) (m : Nat) :
    combineOne ub mf m =
      match lookupQ ub m, lookupQ mf m with
      | some a, some b => some (m, (a + b) / 2)
      | some a, none => some (m, a)
      | none, some b => some (m, b)
      | none, none => none := by
  unfold combineOne
  rcases lookupQ ub m with _ | a <;> rcases lookupQ mf m with _ | b <;> simp

theorem combineOne_fst {ub mf : List (Nat × ℚ)} {m : Nat} {p : Nat × ℚ}
    (h : combineOne ub mf m = some p) : p.1 = m := by
  rw [combineOne_eval] at h
  rcases h1 : lookupQ ub m with _ | a <;> rcases h2 : lookupQ mf m with _ | b <;>
      simp only [h1, h2] at h
  · exact absurd h (by simp)
  all_goals
    rw [← Option.some.inj h]

theorem mem_combineScores_both {ub mf : List (Nat × ℚ)} {m : Nat} {a b : ℚ}
    (h1 : lookupQ ub m = some a) (h2 : lookupQ mf m = some b) :
    (m, (a + b) / 2) ∈ combineScores ub mf := by
  unfold combineScores
  refine List.mem_filterMap.mpr ⟨m, ?_, ?_⟩
  · refine mem_dedupF.mpr (List.mem_append.mpr (Or.inl ?_))
    exact List.mem_map_of_mem (fun p => p.1) (lookupB_mem h1)
  · rw [combineOne_eval, h1, h2]

theorem mem_combineScores_left {ub mf : List (Nat × ℚ)} {m : Nat} {a : ℚ}
    (h1 : lookupQ ub m = some a) (h2 : lookupQ mf m = none) :
    (m, a) ∈ combineScores ub mf := by
  unfold combineScores
  refine List.mem_filterMap.mpr ⟨m, ?_, ?_⟩
  · refine mem_dedupF.mpr (List.mem_append.mpr (Or.inl ?_))
    exact List.mem_map_of_mem (fun p => p.1) (lookupB_mem h1)
  · rw [combineOne_eval, h1, h2]

theorem mem_combineScores_right {ub mf : List (Nat × ℚ)} {m : Nat} {b : ℚ}
    (h1 : lookupQ ub m = none) (h2 : lookupQ mf m = some b) :
    (m, b) ∈ combineScores ub mf := by
  unfold combineScores
  refine List.mem_filterMap.mpr ⟨m, ?_, ?_⟩
  · refine mem_dedupF.mpr (List.mem_append.mpr (Or.inr ?_))
    exact List.mem_map_of_mem (fun p => p.1) (lookupB_mem h2)
  · rw [combineOne_eval, h1, h2]

theorem combineScores_key {ub mf : List (Nat × ℚ)} {p : Nat × ℚ}
    (hp : p ∈ combineScores ub mf) :
    (∃ q ∈ ub, q.1 = p.1) ∨ ∃ q ∈ mf, q.1 = p.1 := by
  unfold combineScores at hp
  rcases List.mem_filterMap.mp hp with ⟨m, hm, hco⟩
  have hfst : p.1 = m := combineOne_fst hco
  rcases List.mem_append.mp (mem_dedupF.mp hm) with h | h
  · left
    rcases List.mem_map.mp h with ⟨q, hq, hqe⟩
    exact ⟨q, hq, by rw [hqe, hfst]⟩
  · right
    rcases List.mem_map.mp h with ⟨q, hq, hqe⟩
    exact ⟨q, hq, by rw [hqe, hfst]⟩

theorem getCollab_mem {s : CollabState} {u : String} {k : ℕ} {x : Nat × ℚ}
    (hx : x ∈ getCollaborativeRecommendations s u k) :
    ∃ p ∈ collabCombined s u, x = (p.1, round3 p.2) ∧ memN p.1 s.moviesDict = true := by
  unfold getCollaborativeRecommendations at hx
  rcases List.mem_map.mp hx with ⟨p, hp, he⟩
  have hf := List.mem_filter.mp hp
  have ht : p ∈ sortDescBy (fun p => p.2) (collabCombined s u) :=
    (List.take_sublist _ _).subset hf.1
  exact ⟨p, mem_sortDescBy.mp ht, he.symm, hf.2⟩

theorem collabCombined_colValue {s : CollabState} {u : String} {M : UserMovieMatrix}
    {uIdx : ℕ} (hM : s.matrixOpt = some M) (hIdx : idxOf? u M.users = some uIdx) :
    ∀ p ∈ collabCombined s u, colValue M.movies (M.cells.getD uIdx []) p.1 = 0 := by
  intro p hp
  simp only [collabCombined] at hp
  rcases combineScores_key hp with ⟨q, hq, hqe⟩ | ⟨q, hq, hqe⟩
  · rw [← hqe]
    simp only [collabUB, hM, hIdx] at hq
    rcases hsim : s.userSim with _ | sim
    · rw [hsim] at hq
      simp at hq
    · rw [hsim] at hq
      exact userBasedScores_colValue q hq
  · rw [← hqe]
    simp only [collabMF, hM, hIdx] at hq
    rcases huf : s.userFactors with _ | uf <;> rcases hif : s.itemFactors with _ | itf <;>
        rw [huf, hif] at hq
    · simp at hq
    · simp at hq
    · simp at hq
    · exact mfScores_colValue q hq

theorem collabCombined_empty_matrix {s : CollabState} {u : String}
    (h : s.matrixOpt = none) : collabCombined s u = [] := by
  simp only [collabCombined, collabUB, collabMF, h]
  rfl

theorem collabCombined_empty_user {s : CollabState} {u : String} {M : UserMovieMatrix}
    (hM : s.matrixOpt = some M) (h : idxOf? u M.users = none) :
    collabCombined s u = [] := by
  simp only [collabCombined, collabUB, collabMF, hM, h]
  rfl

theorem getCollab_of_combined_nil {s : CollabState} {u : String} {k : ℕ}
    (h : collabCombined s u = []) : getCollaborativeRecommendations s u k = [] := by
  unfold getCollaborativeRecommendations
  rw [h]
  simp [sortDescBy]

/-- C2: combined collaborative scores average both signals when both are
present and pass a lone signal through unchanged; the returned list is sorted
descending, has at most top_k entries, and carries scores rounded to 3
decimals. -/
theorem c2_collab_combination (s : CollabState) (u : String) (topk : ℕ) :
    (∀ m a b, lookupQ (collabUB s u) m = some a → lookupQ (collabMF s u) m = some b →
      (m, (a + b) / 2) ∈ collabCombined s u) ∧
    (∀ m a, lookupQ (collabUB s u) m = some a → lookupQ (collabMF s u) m = none →
      (m, a) ∈ collabCombined s u) ∧
    (∀ m b, lookupQ (collabUB s u) m = none → lookupQ (collabMF s u) m = some b →
      (m, b) ∈ collabCombined s u) ∧
    (getCollaborativeRecommendations s u topk).Pairwise (fun p q => q.2 ≤ p.2) ∧
    (getCollaborativeRecommendations s u topk).length ≤ topk ∧
    (∀ x ∈ getCollaborativeRecommendations s u topk,
      ∃ p ∈ collabCombined s u, x = (p.1, round3 p.2)) := by
  refine ⟨?_, ?_, ?_, ?_, ?_, ?_⟩
  · intro m a b h1 h2
    simpa only [collabCombined] using mem_combineScores_both h1 h2
  · intro m a h1 h2
    simpa only [collabCombined] using mem_combineScores_left h1 h2
  · intro m b h1 h2
    simpa only [collabCombined] using mem_combineScores_right h1 h2
  · unfold getCollaborativeRecommendations
    refine List.pairwise_map.mpr ?_
    refine List.Pairwise.imp (fun h => round3_mono h) ?_
    refine List.Pairwise.sublist (List.filter_sublist _) ?_
    refine List.Pairwise.sublist (List.take_sublist _ _) ?_
    exact pairwise_sortDescBy _ _
  · unfold getCollaborativeRecommendations
    rw [List.length_map]
    exact le_trans (List.length_filter_le _ _) (List.length_take_le _ _)
  · intro x hx
    rcases getCollab_mem hx with ⟨p, hp, he, _⟩
    exact ⟨p, hp, he⟩

theorem getCollab_empty_of_unknown (s : CollabState) (u : String)
    (h : ∀ M, s.matrixOpt = some M → u ∉ M.users) :
    ∀ k, getCollaborativeRecommendations s u k = [] := by
  intro k
  apply getCollab_of_combined_nil
  rcases hM : s.matrixOpt with _ | M
  · exact collabCombined_empty_matrix hM
  · exact collabCombined_empty_user hM (idxOf?_eq_none (h M hM))

/-- C8: a user absent from the user-item matrix gets an empty collaborative
result for every top_k, without failing. -/
theorem c8_unknown_user_empty (s : CollabState) (u : String)
    (h : ∀ M, s.matrixOpt = some M → u ∉ M.users) :
    ∀ k, getCollaborativeRecommendations s u k = [] :=
  getCollab_empty_of_unknown s u h

/-- The unknown user of the spec scenario is not a row of stateC3's matrix. -/
theorem stateC3_carol_absent : ∀ M, stateC3.matrixOpt = some M → "c" ∉ M.users := by
  intro M hM
  have h2 : some matC3 = some M := hM
  rw [← Option.some.inj h2]
  decide

/-- Witness for C8: the scenario user c is unknown to the trained stateC3. -/
theorem c8_witness :
    (∀ M, stateC3.matrixOpt = some M → "c" ∉ M.users) ∧
    (∀ k, getCollaborativeRecommendations stateC3 "c" k = []) :=
  ⟨stateC3_carol_absent, c8_unknown_user_empty stateC3 "c" stateC3_carol_absent⟩

/-- C10: collaborative results are restricted to ids present in the movies
metadata dictionary, the filter runs after the top_k truncation (so fewer than
top_k results can come back while more scored candidates exist, as stateC10
shows with top_k = 1), and an empty metadata dictionary forces an empty result
even for a trained model. -/
theorem c10_movies_dict_filter :
    (∀ (s : CollabState) (u : String) (k : ℕ),
      ∀ x ∈ getCollaborativeRecommendations s u k, x.1 ∈ s.moviesDict) ∧
    (∀ (s : CollabState) (u : String) (k : ℕ), s.moviesDict = [] →
      getCollaborativeRecommendations s u k = []) ∧
    (getCollaborativeRecommendations stateC10 "u" 1 = [] ∧
      2 ≤ (collabCombined stateC10 "u").length ∧
      ∃ p ∈ collabCombined stateC10 "u", memN p.1 stateC10.moviesDict = true) := by
  refine ⟨?_, ?_, ?_⟩
  · intro s u k x hx
    rcases getCollab_mem hx with ⟨p, _, he, hmem⟩
    rw [he]
    exact memN_iff.mp hmem
  · intro s u k h
    unfold getCollaborativeRecommendations
    rw [h]
    simp [memN]
  · refine ⟨?_, ?_, ?_⟩
    · norm_num [getCollaborativeRecommendations, collabCombined, collabUB, collabMF,
        stateC10, idxOf?, userBasedScores, mfScores, sortDescBy, insertDescBy,
        List.range_succ, combineScores, combineOne, dedupF, memN, lookupB, lookupQ,
        updOrV, addScore, scoreSet, colValue, enumF, dotQ, List.filterMap_cons,
        List.filterMap_nil]
    · norm_num [collabCombined, collabUB, collabMF,
        stateC10, idxOf?, userBasedScores, mfScores, sortDescBy, insertDescBy,
        List.range_succ, combineScores, combineOne, dedupF, memN, lookupB, lookupQ,
        updOrV, addScore, scoreSet, colValue, enumF, dotQ, List.filterMap_cons,
        List.filterMap_nil]
    · refine ⟨(3, 4), ?_, by norm_num [stateC10, memN]⟩
      norm_num [collabCombined, collabUB, collabMF,
        stateC10, idxOf?, userBasedScores, mfScores, sortDescBy, insertDescBy,
        List.range_succ, combineScores, combineOne, dedupF, memN, lookupB, lookupQ,
        updOrV, addScore, scoreSet, colValue, enumF, dotQ, List.filterMap_cons,
        List.filterMap_nil]

/-! ## Claim C3: no-self-recommendation -/

theorem matC3_matches : MatrixMatches storeC3 matC3 := by
  unfold MatrixMatches
  intro row hrow i hi
  simp [matC3, List.mem_range] at hi
  simp only [storeC3, List.mem_cons, List.not_mem_nil, or_false] at hrow
  interval_cases i <;> rcases hrow with rfl | rfl | rfl | rfl <;> simp [matC3, colValue]

theorem storeC3_matches : StateMatchesStore storeC3 stateC3 := by
  intro M hM
  have h2 : some matC3 = some M := hM
  rw [← Option.some.inj h2]
  exact matC3_matches

theorem stateC3_cosine : StateCosineValid stateC3 := by
  intro M sim hM hS
  have h2 : some matC3 = some M := hM
  have h3 : some [[1, 3/5], [3/5, 1]] = some sim := hS
  rw [← Option.some.inj h2, ← Option.some.inj h3]
  unfold IsCosineSim
  intro i hi j hj
  simp [matC3, List.mem_range] at hi hj
  interval_cases i <;> interval_cases j <;> norm_num [matC3, dotQ]

theorem mem_ratedIds_of_mem {store : RatingStore} {u : String} {m : Nat} {v : ℚ}
    (h : (u, m, v) ∈ store) : m ∈ ratedIds store u := by
  unfold ratedIds getUserRatings
  have h1 : (u, m, v) ∈ store.filter (fun row => row.1 == u) :=
    List.mem_filter.mpr ⟨h, by simp⟩
  have h2 := List.mem_map_of_mem (fun row : String × Nat × ℚ => (row.2.1, row.2.2)) h1
  exact List.mem_map_of_mem (fun p : Nat × ℚ => p.1) h2

theorem getHybrid_not_rated {c k2 : List Nat} {cw clw : ℚ} {rated : List Nat}
    {kk : ℕ} {r : HybridRec}
    (hr : r ∈ getHybridRecommendations c k2 cw clw rated kk) :
    memN r.id rated = false := by
  unfold getHybridRecommendations at hr
  have h1 := (List.take_sublist _ _).subset hr
  have h2 := (List.mem_filter.mp h1).2
  simpa using h2

/-- C3 (amended): getHybridRecommendations never returns a movie the user has
rated, for any rating value in [0,10]; scoreForUser never returns a movie
whose stored rating value is nonzero (a rating of exactly 0 leaves the matrix
cell at 0, so scoreForUser treats the movie as unseen). -/
theorem c3_no_self_recommendation (s : CollabState) (store : RatingStore)
    (u : String) (m : Nat) (v : ℚ) (hmem : (u, m, v) ∈ store)
    (hmatch : StateMatchesStore store s) : C3Concl s store u m v := by
  constructor
  · intro hv k x hx heq
    rcases getCollab_mem hx with ⟨p, hp, hxe, _⟩
    rcases hM : s.matrixOpt with _ | M
    · rw [collabCombined_empty_matrix hM] at hp
      simp at hp
    · rcases hidx : idxOf? u M.users with _ | uIdx
      · rw [collabCombined_empty_user hM hidx] at hp
        simp at hp
      · have hcol := collabCombined_colValue hM hidx p hp
        have hpm : p.1 = m := by
          rw [hxe] at heq
          simpa using heq
        rcases idxOf?_getD hidx with ⟨hlt, hgetd⟩
        have hmm := hmatch M hM (u, m, v) hmem uIdx (List.mem_range.mpr hlt)
          (by rw [hgetd])
        simp only [] at hmm
        rw [hpm] at hcol
        exact hv (hmm.symm.trans hcol)
  · intro contentRecs cw clw k r hr heq
    have hnot := getHybrid_not_rated hr
    rw [heq] at hnot
    rw [memN_iff.mpr (mem_ratedIds_of_mem hmem)] at hnot
    exact Bool.noConfusion hnot

/-- C3 counterexample: in the trained stateC3 (matrix agreeing with the
stored ratings, similarity matrix the exact cosine of the matrix rows), user a
has the stored rating (a, 2, 0) with 0 in [0,10], yet scoreForUser returns
movie 2 — refuting the claim for rating value 0. -/
theorem c3_counterexample :
    ("a", 2, (0:ℚ)) ∈ storeC3 ∧ (0:ℚ) ≤ 0 ∧ (0:ℚ) ≤ 10 ∧
    StateMatchesStore storeC3 stateC3 ∧ StateCosineValid stateC3 ∧
    2 ∈ (getCollaborativeRecommendations stateC3 "a" 5).map (fun x => x.1) := by
  refine ⟨by simp [storeC3], le_refl 0, by norm_num, storeC3_matches, stateC3_cosine, ?_⟩
  norm_num [getCollaborativeRecommendations, collabCombined, collabUB, collabMF,
    stateC3, matC3, idxOf?, userBasedScores, mfScores, sortDescBy, insertDescBy,
    List.range_succ, combineScores, combineOne, dedupF, memN, lookupB, lookupQ,
    updOrV, addScore, scoreSet, colValue, enumF, dotQ, List.filterMap_cons,
    List.filterMap_nil]

/-- Witness for the amended C3 at the rating (a, 1, 5) of stateC3. -/
theorem c3_witness :
    (("a", 1, (5:ℚ)) ∈ storeC3) ∧ StateMatchesStore storeC3 stateC3 ∧
    C3Concl stateC3 storeC3 "a" 1 5 :=
  ⟨by simp [storeC3], storeC3_matches,
    c3_no_self_recommendation stateC3 storeC3 "a" 1 5 (by simp [storeC3])
      storeC3_matches⟩

/-! ## Claim C9: cold start -/

theorem hybridTable_collab_zero (c : List Nat) :
    ∀ q ∈ hybridTable c [], q.2.2 = 0 := by
  unfold hybridTable
  simp only [enumF, List.foldl_nil]
  apply foldl_preserve (P := fun (t : List (Nat × ℚ × ℚ)) => ∀ q ∈ t, q.2.2 = 0)
  · intro q hq
    simp at hq
  · intro t p ht _ q hq
    rcases mem_updOrV hq with rfl | ⟨p2, hp2, heq | ⟨_, heq⟩⟩
    · rfl
    · rw [heq]
      exact ht p2 hp2
    · rw [heq]

theorem getHybrid_mem {c k2 : List Nat} {cw clw : ℚ} {rated : List Nat} {kk : ℕ}
    {r : HybridRec} (hr : r ∈ getHybridRecommendations c k2 cw clw rated kk) :
    r ∈ hybridRecords (hybridTable c k2) cw clw := by
  unfold getHybridRecommendations at hr
  have h1 := (List.take_sublist _ _).subset hr
  exact mem_sortDescBy.mp (List.mem_filter.mp h1).1

/-- C9: a user with zero stored ratings (matrix rows only come from users with
ratings) receives only content-sourced hybrid recommendations — every result's
collaborative component is 0. -/
theorem c9_cold_start (s : CollabState) (store : RatingStore) (u : String)
    (contentRecs : List Nat) (cw clw : ℚ) (k : ℕ)
    (husers : StateUsersFromStore store s)
    (hzero : ∀ row ∈ store, row.1 ≠ u) :
    ∀ r ∈ hybridFull s store contentRecs cw clw u k, r.collabComponent = 0 := by
  intro r hr
  have hunk : ∀ M, s.matrixOpt = some M → u ∉ M.users := by
    intro M hM hu
    rcases husers M hM u hu with ⟨row, hrow, hru⟩
    exact hzero row hrow hru
  have hempty := getCollab_empty_of_unknown s u hunk (2 * k)
  unfold hybridFull at hr
  rw [hempty] at hr
  simp only [List.map_nil] at hr
  rcases List.mem_map.mp (getHybrid_mem hr) with ⟨q, hq, he⟩
  rw [← he]
  show round3 q.2.2 = 0
  rw [hybridTable_collab_zero contentRecs q hq, round3_zero]

theorem stateC3_users : StateUsersFromStore storeC3 stateC3 := by
  intro M hM
  have h2 : some matC3 = some M := hM
  rw [← Option.some.inj h2]
  unfold UsersFromStore
  intro u hu
  simp only [matC3, List.mem_cons, List.not_mem_nil, or_false] at hu
  rcases hu with rfl | rfl
  · exact ⟨("a", 1, 5), by simp [storeC3], rfl⟩
  · exact ⟨("b", 1, 3), by simp [storeC3], rfl⟩

theorem storeC3_no_carol : ∀ row ∈ storeC3, row.1 ≠ "c" := by
  intro row hrow
  simp only [storeC3, List.mem_cons, List.not_mem_nil, or_false] at hrow
  rcases hrow with rfl | rfl | rfl | rfl <;> simp

/-- Witness for C9: user c has no rating in storeC3, so every hybrid result in
the consistent trained stateC3 carries collaborative component 0. -/
theorem c9_witness :
    StateUsersFromStore storeC3 stateC3 ∧ (∀ row ∈ storeC3, row.1 ≠ "c") ∧
    (∀ r ∈ hybridFull stateC3 storeC3 [10, 20] (3/5) (2/5) "c" 2,
      r.collabComponent = 0) :=
  ⟨stateC3_users, storeC3_no_carol,
    c9_cold_start stateC3 storeC3 "c" [10, 20] (3/5) (2/5) 2 stateC3_users
      storeC3_no_carol⟩

/-! ## Claim C1: hybrid table structure -/

theorem enumF_snd {α : Type} (n : ℕ) (l : List α) : (enumF n l).map Prod.snd = l := by
  induction l generalizing n with
  | nil => rfl
  | cons x xs ih => simp [enumF, ih]

theorem snd_mem_enumF {α : Type} {n : ℕ} {l : List α} {p : ℕ × α}
    (hp : p ∈ enumF n l) : p.2 ∈ l := by
  have h := List.mem_map_of_mem Prod.snd hp
  rw [enumF_snd] at h
  exact h

theorem getD_mem_enumF {α : Type} (d : α) :
    ∀ (l : List α) (n j : ℕ), j < l.length → (n + j, l.getD j d) ∈ enumF n l := by
  intro l
  induction l with
  | nil =>
    intro n j hj
    simp at hj
  | cons x xs ih =>
    intro n j hj
    cases j with
    | zero => simp [enumF]
    | succ i =>
      simp only [enumF, List.getD_cons_succ]
      refine List.mem_cons_of_mem _ ?_
      have h := ih (n + 1) i (by simpa using hj)
      have harith : n + 1 + i = n + (i + 1) := by omega
      rw [harith] at h
      exact h

theorem contentFold_eq (f : ℕ → ℚ) :
    ∀ (l : List Nat) (n : ℕ) (t0 : List (Nat × ℚ × ℚ)), l.Nodup →
      (∀ q ∈ t0, q.1 ∉ l) →
      (enumF n l).foldl (fun t p => setContent t p.2 (f p.1)) t0 =
        t0 ++ (enumF n l).map (fun p => (p.2, f p.1, 0)) := by
  intro l
  induction l with
  | nil =>
    intro n t0 _ _
    simp [enumF]
  | cons x xs ih =>
    intro n t0 hnd hdisj
    simp only [enumF, List.foldl_cons, List.map_cons]
    have habs : setContent t0 x (f n) = t0 ++ [(x, f n, 0)] := by
      unfold setContent
      apply updOrV_absent
      intro q hq e
      exact hdisj q hq (by rw [e]; exact List.mem_cons_self x xs)
    rw [habs]
    rw [ih (n + 1) (t0 ++ [(x, f n, 0)]) (List.nodup_cons.mp hnd).2 ?_]
    · simp
    · intro q hq
      rcases List.mem_append.mp hq with h | h
      · exact fun hm => hdisj q h (List.mem_cons_of_mem _ hm)
      · have he : q = (x, f n, 0) := by simpa using h
        rw [he]
        exact (List.nodup_cons.mp hnd).1

theorem enumMap_lookup {β : Type} (g : ℕ → β) :
    ∀ (l : List Nat) (n i : ℕ), l.Nodup → i < l.length →
      lookupB ((enumF n l).map (fun p => (p.2, g p.1))) (l.getD i 0) =
        some (g (n + i)) := by
  intro l
  induction l with
  | nil =>
    intro n i _ hi
    simp at hi
  | cons x xs ih =>
    intro n i hnd hi
    cases i with
    | zero =>
      simp only [enumF, List.map_cons, List.getD_cons_zero]
      rw [lookupB, if_pos (by simp)]
      simp
    | succ j =>
      simp only [enumF, List.map_cons, List.getD_cons_succ]
      have hj : j < xs.length := by simpa using hi
      have hxne : ¬((x == xs.getD j 0) = true) := by
        simp only [beq_iff_eq]
        intro e
        exact (List.nodup_cons.mp hnd).1 (by rw [e]; exact getD_memQ hj 0)
      rw [lookupB, if_neg hxne]
      rw [ih (n + 1) j (List.nodup_cons.mp hnd).2 hj]
      have harith : n + 1 + j = n + (j + 1) := by omega
      rw [harith]

theorem collabFold_preserve_content (h : ℕ → ℚ) (l : List (ℕ × Nat)) (m : Nat)
    (cs : ℚ) (t0 : List (Nat × ℚ × ℚ)) (cls0 : ℚ)
    (h0 : lookup3 t0 m = some (cs, cls0)) :
    ∃ cls, lookup3 (l.foldl (fun t p => setCollab t p.2 (h p.1)) t0) m =
      some (cs, cls) := by
  apply foldl_preserve
    (P := fun (t : List (Nat × ℚ × ℚ)) => ∃ cls, lookup3 t m = some (cs, cls))
  · exact ⟨cls0, h0⟩
  · rintro t p ⟨cls, hcls⟩ _
    by_cases hpm : p.2 = m
    · subst hpm
      refine ⟨h p.1, ?_⟩
      show lookup3 (setCollab t p.2 (h p.1)) p.2 = some (cs, h p.1)
      unfold setCollab lookup3
      exact lookupB_updOrV_present hcls
    · refine ⟨cls, ?_⟩
      show lookup3 (setCollab t p.2 (h p.1)) m = some (cs, cls)
      unfold setCollab lookup3
      rw [lookupB_updOrV_ne (fun e => hpm e.symm)]
      exact hcls

theorem collabFold_lookup_self (h : ℕ → ℚ) :
    ∀ (l : List (ℕ × Nat)), (l.map Prod.snd).Nodup →
      ∀ (t0 : List (Nat × ℚ × ℚ)), ∀ p ∈ l,
        ∃ cs, lookup3 (l.foldl (fun t q => setCollab t q.2 (h q.1)) t0) p.2 =
          some (cs, h p.1) := by
  intro l
  induction l with
  | nil =>
    intro _ t0 p hp
    simp at hp
  | cons q qs ih =>
    intro hnd t0 p hp
    have hnd2 : (q.2 :: qs.map Prod.snd).Nodup := by simpa using hnd
    simp only [List.foldl_cons]
    rcases List.mem_cons.mp hp with rfl | hp2
    · have hstep : ∃ cs, lookup3 (setCollab t0 p.2 (h p.1)) p.2 = some (cs, h p.1) := by
        cases hl : lookupB t0 p.2 with
        | none =>
          refine ⟨0, ?_⟩
          unfold setCollab lookup3
          exact lookupB_updOrV_absent hl
        | some pr =>
          refine ⟨pr.1, ?_⟩
          unfold setCollab lookup3
          exact lookupB_updOrV_present hl
      rcases hstep with ⟨cs, hcs⟩
      refine ⟨cs, ?_⟩
      apply foldl_preserve
        (P := fun (t : List (Nat × ℚ × ℚ)) => lookup3 t p.2 = some (cs, h p.1))
      · exact hcs
      · intro t r ht hr
        have hne : p.2 ≠ r.2 := by
          intro e
          exact (List.nodup_cons.mp hnd2).1
            (by rw [e]; exact List.mem_map_of_mem Prod.snd hr)
        show lookup3 (setCollab t r.2 (h r.1)) p.2 = some (cs, h p.1)
        unfold setCollab lookup3
        rw [lookupB_updOrV_ne hne]
        exact ht
    · exact ih (List.nodup_cons.mp hnd2).2 (setCollab t0 q.2 (h q.1)) p hp2

theorem hybridTable_content_pos (c k : List Nat) (hc : c.Nodup) :
    ∀ i ∈ List.range c.length, ∃ cls,
      lookup3 (hybridTable c k) (c.getD i 0) = some (posScore c.length i, cls) := by
  intro i hi
  rw [List.mem_range] at hi
  have ht1 : lookup3 ((enumF 0 c).foldl
      (fun t p => setContent t p.2 (posScore c.length p.1)) []) (c.getD i 0) =
      some (posScore c.length i, 0) := by
    rw [contentFold_eq (fun j => posScore c.length j) c 0 [] hc
      (by intro q hq; simp at hq)]
    rw [List.nil_append]
    show lookupB ((enumF 0 c).map (fun p => (p.2, posScore c.length p.1, 0)))
      (c.getD i 0) = some (posScore c.length i, 0)
    have h := enumMap_lookup (fun j => ((posScore c.length j, 0) : ℚ × ℚ)) c 0 i hc hi
    simpa using h
  simp only [hybridTable]
  exact collabFold_preserve_content (fun j => posScore k.length j) (enumF 0 k)
    (c.getD i 0) (posScore c.length i) _ 0 ht1

theorem hybridTable_collab_pos (c k : List Nat) (hk : k.Nodup) :
    ∀ j ∈ List.range k.length, ∃ cs,
      lookup3 (hybridTable c k) (k.getD j 0) = some (cs, posScore k.length j) := by
  intro j hj
  rw [List.mem_range] at hj
  simp only [hybridTable]
  have hnd : ((enumF 0 k).map Prod.snd).Nodup := by
    rw [enumF_snd]
    exact hk
  have hp : (j, k.getD j 0) ∈ enumF 0 k := by
    have h := getD_mem_enumF 0 k 0 j hj
    simpa using h
  have h := collabFold_lookup_self (fun i => posScore k.length i) (enumF 0 k) hnd
    ((enumF 0 c).foldl (fun t p => setContent t p.2 (posScore c.length p.1)) [])
    (j, k.getD j 0) hp
  simpa using h

theorem hybridTable_keys (c k : List Nat) :
    ∀ q ∈ hybridTable c k,
      (q.1 ∈ c ∨ q.1 ∈ k) ∧ (q.1 ∉ c → q.2.1 = 0) ∧ (q.1 ∉ k → q.2.2 = 0) := by
  simp only [hybridTable]
  have h1 : ∀ q ∈ (enumF 0 c).foldl
      (fun t p => setContent t p.2 (posScore c.length p.1)) [],
      q.1 ∈ c ∧ q.2.2 = 0 := by
    apply foldl_preserve
      (P := fun (t : List (Nat × ℚ × ℚ)) => ∀ q ∈ t, q.1 ∈ c ∧ q.2.2 = 0)
    · intro q hq
      simp at hq
    · intro t p ht hp q hq
      rcases mem_updOrV hq with rfl | ⟨p2, hp2, heq | ⟨_, heq⟩⟩
      · exact ⟨snd_mem_enumF hp, rfl⟩
      · rw [heq]
        exact ht p2 hp2
      · rw [heq]
        exact ⟨(ht p2 hp2).1, rfl⟩
  apply foldl_preserve
    (P := fun (t : List (Nat × ℚ × ℚ)) => ∀ q ∈ t,
      (q.1 ∈ c ∨ q.1 ∈ k) ∧ (q.1 ∉ c → q.2.1 = 0) ∧ (q.1 ∉ k → q.2.2 = 0))
  · intro q hq
    rcases h1 q hq with ⟨hcm, hz⟩
    exact ⟨Or.inl hcm, fun hn => absurd hcm hn, fun _ => hz⟩
  · intro t p ht hp q hq
    rcases mem_updOrV hq with rfl | ⟨p2, hp2, heq | ⟨hk2, heq⟩⟩
    · have hpk : p.2 ∈ k := snd_mem_enumF hp
      exact ⟨Or.inr hpk, fun _ => rfl, fun hn => absurd hpk hn⟩
    · rw [heq]
      exact ht p2 hp2
    · rw [heq]
      have hpk : p2.1 ∈ k := by
        rw [hk2]
        exact snd_mem_enumF hp
      rcases ht p2 hp2 with ⟨ho, hc0, _⟩
      exact ⟨ho, hc0, fun hn => absurd hpk hn⟩

theorem hybridRecords_spec (t : List (Nat × ℚ × ℚ)) (cw clw : ℚ) :
    ∀ r ∈ hybridRecords t cw clw, ∃ q ∈ t, r.id = q.1 ∧
      r.hybridScore = round3 (cw * q.2.1 + clw * q.2.2) ∧
      r.contentComponent = round3 q.2.1 ∧ r.collabComponent = round3 q.2.2 := by
  intro r hr
  rcases List.mem_map.mp hr with ⟨q, hq, he⟩
  exact ⟨q, hq, by rw [← he], by rw [← he], by rw [← he], by rw [← he]⟩

theorem c1Synth_holds : C1Synth := by
  constructor
  · norm_num [getHybridRecommendations, hybridTable, hybridRecords, setContent,
      setCollab, updOrV, posScore, enumF, sortDescBy, insertDescBy, memN, round3,
      round_eq]
  · norm_num [getHybridRecommendations, hybridTable, hybridRecords, setContent,
      setCollab, updOrV, posScore, enumF, sortDescBy, insertDescBy, memN, round3,
      round_eq, List.forall_mem_cons]

/-- C1: content and collaborative candidates receive positional scores
(L - i)/L on their own lists, the union by movie id scores an absent component
0, each record's hybrid score is the rounded blend cw*content +
clw*collaborative of its table entry, and the synthetic one-user three-movie
case with weights 0.6/0.4 reproduces the hand-computed blends within 1e-6. -/
theorem c1_weighted_blend (c k : List Nat) (cw clw : ℚ)
    (hc : c.Nodup) (hk : k.Nodup) : C1Core c k cw clw ∧ C1Synth :=
  ⟨⟨hybridTable_content_pos c k hc, hybridTable_collab_pos c k hk,
    hybridTable_keys c k, hybridRecords_spec (hybridTable c k) cw clw⟩,
   c1Synth_holds⟩

/-- Witness for C1 at the synthetic candidate lists. -/
theorem c1_witness :
    ([10, 20, 30] : List Nat).Nodup ∧ ([10] : List Nat).Nodup ∧
    (C1Core [10, 20, 30] [10] (3/5) (2/5) ∧ C1Synth) :=
  ⟨by decide, by decide,
    c1_weighted_blend [10, 20, 30] [10] (3/5) (2/5) (by decide) (by decide)⟩

/-! ## Claims C4 and C5: refresh controller -/

theorem maxByMtime_append_max (l : List (ℕ × CollabState)) (t : ℕ) (mo : CollabState)
    (h : ∀ b ∈ l, b.1 < t) : maxByMtime (l ++ [(t, mo)]) = some (t, mo) := by
  have haux : ∀ (ys : List (ℕ × CollabState)) (acc : ℕ × CollabState), acc.1 < t →
      (∀ b ∈ ys, b.1 < t) →
      (ys ++ [(t, mo)]).foldl (fun c y => if c.1 < y.1 then y else c) acc = (t, mo) := by
    intro ys
    induction ys with
    | nil =>
      intro acc hacc _
      simp [if_pos hacc]
    | cons y ys2 ih =>
      intro acc hacc hys
      rw [List.cons_append, List.foldl_cons]
      apply ih
      · by_cases hcy : acc.1 < y.1
        · rw [if_pos hcy]
          exact hys y (List.mem_cons_self y ys2)
        · rw [if_neg hcy]
          exact hacc
      · intro b hb
        exact hys b (List.mem_cons_of_mem _ hb)
  cases l with
  | nil => rfl
  | cons x xs =>
    rw [List.cons_append]
    simp only [maxByMtime]
    rw [haux xs x (h x (List.mem_cons_self x xs))
      (fun b hb => h b (List.mem_cons_of_mem _ hb))]

/-- C4 (amended): only a fault escaping the train() call triggers restoration;
it restores the pre-cycle model and keeps the counter, but the drained batch
is discarded (queue left empty); a fault inside the persist routine is caught
there and the cycle completes, resetting the counter to 0. -/
theorem c4_rollback_amended (trainFn : CollabState → CollabState) (s : UpdaterState)
    (hq : s.queue ≠ []) (hb : ∀ b ∈ s.backups, b.1 < s.clock) :
    C4Concl trainFn s := by
  have hne : s.queue.isEmpty = false := by
    cases hql : s.queue with
    | nil => exact absurd hql hq
    | cons a as => rfl
  refine ⟨?_, ?_, ?_, ?_⟩
  · simp [performModelUpdate, hne, restoreBackupModels,
      maxByMtime_append_max s.backups s.clock s.model hb]
  · simp [performModelUpdate, hne, restoreBackupModels,
      maxByMtime_append_max s.backups s.clock s.model hb]
  · simp [performModelUpdate, hne, restoreBackupModels,
      maxByMtime_append_max s.backups s.clock s.model hb]
  · simp [performModelUpdate, hne]

/-- C4 counterexample: with a fault during the persist step (caught inside
save_models), the model keeps the freshly trained state instead of being
restored and the pending counter is reset; moreover a fault during train
leaves the queue empty, so the drained batch cannot be retried. -/
theorem c4_counterexample :
    (performModelUpdate trainToB Fault.duringPersist updaterC4).model ≠
      updaterC4.model ∧
    (performModelUpdate trainToB Fault.duringPersist updaterC4).updateCount ≠
      updaterC4.updateCount ∧
    (performModelUpdate trainToB Fault.duringTrain updaterC4).queue = [] ∧
    updaterC4.queue ≠ [] := by
  refine ⟨by decide, by decide, by decide, by decide⟩

/-- Witness for the amended C4 at the concrete pre-cycle state updaterC4. -/
theorem c4_witness :
    updaterC4.queue ≠ [] ∧ (∀ b ∈ updaterC4.backups, b.1 < updaterC4.clock) ∧
    C4Concl trainToB updaterC4 :=
  ⟨by decide, by decide, c4_rollback_amended trainToB updaterC4 (by decide) (by decide)⟩

theorem enqueueRatings_trigger (events : List (String × Nat × ℚ)) :
    ∀ s : UpdaterState,
      ((enqueueRatings s events).2 = true ↔
        events ≠ [] ∧ s.minUpdatesThreshold ≤ s.updateCount + events.length) := by
  induction events with
  | nil =>
    intro s
    simp [enqueueRatings]
  | cons e es ih =>
    intro s
    simp only [enqueueRatings, queueRatingUpdate, Bool.or_eq_true, decide_eq_true_eq]
    rw [ih]
    simp only [List.length_cons]
    constructor
    · rintro (h | ⟨hne, hle⟩)
      · exact ⟨List.cons_ne_nil _ _, by omega⟩
      · exact ⟨List.cons_ne_nil _ _, by omega⟩
    · rintro ⟨hne, hle⟩
      by_cases hes : es = []
      · subst hes
        left
        simp only [List.length_nil] at hle
        omega
      · right
        exact ⟨hes, by omega⟩

/-- C5 (amended): enqueues append and increment; the immediate-retrain trigger
exists only on the rating path, where it fires exactly when the counter
reaches the threshold; feedback enqueues never trigger. -/
theorem c5_enqueue_amended (s : UpdaterState) (u : String) (m rm : Nat) (r : ℚ)
    (fb : String) (events : List (String × Nat × ℚ))
    (hcount : s.updateCount = 0) (hpos : 0 < s.minUpdatesThreshold) :
    C5Concl s u m rm r fb events := by
  refine ⟨⟨rfl, rfl, by simp [queueRatingUpdate]⟩, ⟨rfl, rfl, rfl⟩, ?_, ?_⟩
  · intro hlt
    cases htr : (enqueueRatings s events).2 with
    | false => rfl
    | true =>
      rcases (enqueueRatings_trigger events s).mp htr with ⟨_, hle⟩
      omega
  · intro heq
    apply (enqueueRatings_trigger events s).mpr
    constructor
    · intro he
      rw [he] at heq
      simp at heq
      omega
    · omega

/-- C5 counterexample: with threshold 2, two feedback enqueues bring the
pending counter to the threshold, yet neither call schedules an immediate
out-of-band retrain. -/
theorem c5_counterexample :
    ((queueFeedbackUpdate (queueFeedbackUpdate updaterC5 "a" 1 2 "like").1
        "a" 3 4 "like").1.updateCount = updaterC5.minUpdatesThreshold) ∧
    (queueFeedbackUpdate updaterC5 "a" 1 2 "like").2 = false ∧
    (queueFeedbackUpdate (queueFeedbackUpdate updaterC5 "a" 1 2 "like").1
        "a" 3 4 "like").2 = false := by
  refine ⟨by decide, rfl, rfl⟩

/-- Witness for the amended C5 at the fresh controller updaterC5. -/
theorem c5_witness :
    updaterC5.updateCount = 0 ∧ 0 < updaterC5.minUpdatesThreshold ∧
    C5Concl updaterC5 "a" 1 2 (5:ℚ) "like" [("a", 1, 5), ("b", 2, 6)] :=
  ⟨rfl, by decide,
    c5_enqueue_amended updaterC5 "a" 1 2 (5:ℚ) "like" [("a", 1, 5), ("b", 2, 6)]
      rfl (by decide)⟩
